import Mathlib

/-!
Verification of the tile-grid arithmetic, tile enumeration and download
orchestration of the `simple-tile-downloader` repository.

The TypeScript sources under `src/` are embedded shallowly:

* JavaScript numbers are modelled by `ℚ` (the algorithms use only field
  operations and `Math.floor`); tile indices by `ℤ`; zoom levels by `ℕ`.
* JavaScript strings are modelled by `List Char`; `String.prototype.replace`
  with a plain-string pattern (first occurrence only) is `replaceFirst`.
* Fallible code (`throw`) is modelled with `Except Err`.
* The external collaborators (`proj4` forward transformation, the epsg.io
  extent lookup) are parameters of the functions that consume them: a
  `ProjFn` oracle and an `Except Err Extent` argument for the resolved
  CRS extent.
* The `async` orchestration of `fetchTiles` is modelled as a deterministic
  machine driven by a completion schedule: at every suspension point on
  `Promise.race` the schedule picks which in-flight operation settles and
  with which HTTP response.
-/

namespace TileDL

deriving instance DecidableEq for Except

/-- A JavaScript string, modelled as its list of characters. -/
abbrev Str := List Char

/-- The character `{` (written via its code point to keep literals plain). -/
def lb : Char := Char.ofNat 123

/-- The character `}` (written via its code point to keep literals plain). -/
def rb : Char := Char.ofNat 125

/-- The URL template placeholder for the tile X index. -/
def phX : Str := [lb, 'x', rb]

/-- The URL template placeholder for the tile Y index. -/
def phY : Str := [lb, 'y', rb]

/-- The URL template placeholder for the TMS (bottom-origin) Y index. -/
def phMY : Str := [lb, '-', 'y', rb]

/-- The URL template placeholder for the zoom level. -/
def phZ : Str := [lb, 'z', rb]

/-- The URL template placeholder for the rotating subdomain. -/
def phS : Str := [lb, 's', rb]

/-- `src/types.ts`: an extent `[minX, minY, maxX, maxY]` in CRS units. -/
structure Extent where
  minX : ℚ
  minY : ℚ
  maxX : ℚ
  maxY : ℚ
deriving DecidableEq, Repr

/-- `src/types.ts`: the inclusive tile-index rectangle of one zoom level. -/
structure TileRange where
  zoom : ℕ
  minX : ℤ
  maxX : ℤ
  minY : ℤ
  maxY : ℤ
  count : ℤ
deriving DecidableEq, Repr

/-- `src/tilegrid.ts`: the grid value built by `createXYZTileGrid`. -/
structure XYZTileGrid where
  extent : Extent
  minZoom : ℕ
  maxZoom : ℕ
  tileSize : ℚ
  resolutions : List ℚ
deriving DecidableEq, Repr

/-- The distinct `throw` sites of the embedded sources. -/
inductive Err where
  /-- `crs.ts` `getCRSExtent`: the CRS identifier could not be resolved. -/
  | unknownCRS
  /-- `crs.ts` `transformExtent`: the corner transformation itself threw. -/
  | transformThrow
  /-- `crs.ts` `transformExtent`: no corner produced a valid coordinate. -/
  | noValidCoordinates
  /-- `tiles.ts` `processTilesConfig`: bounding box exceeds the CRS extent. -/
  | bboxExceedsExtent
  /-- `tiles.ts` `processTilesConfig`: `url` has `{s}` but no subdomains. -/
  | missingSubdomains
  /-- `tilegrid.ts` `getTileRangeForExtent`: zoom not in `grid.resolutions`. -/
  | zoomNotFound
  /-- `tiles.ts` `processTilesConfig`: `[].reduce` on an empty range list. -/
  | reduceEmptyArray
deriving DecidableEq, Repr

/-- `src/tilegrid.ts` `calculateResolutions`: one resolution per zoom level
`0 .. maxZoom`, `maxDimension / (tileSize * 2 ^ z)`. -/
def calculateResolutions (extent : Extent) (maxZoom : ℕ)
    (tileSize : ℚ := 256) : List ℚ :=
  let extentWidth := extent.maxX - extent.minX
  let extentHeight := extent.maxY - extent.minY
  let maxDimension := max extentWidth extentHeight
  (List.range (maxZoom + 1)).map fun z => maxDimension / (tileSize * 2 ^ z)

/-- `src/tilegrid.ts` `createXYZTileGrid`. -/
def createXYZTileGrid (extent : Extent) (minZoom : ℕ := 0)
    (maxZoom : ℕ := 20) (tileSize : ℚ := 256) : XYZTileGrid :=
  { extent := extent
    minZoom := minZoom
    maxZoom := maxZoom
    tileSize := tileSize
    resolutions := calculateResolutions extent maxZoom tileSize }

/-- `src/tilegrid.ts` `getTileRangeForExtent`.  The `resolution` lookup models
`grid.resolutions[zoom]` followed by the JavaScript falsiness test
`if (!resolution) throw ...`, which also rejects a resolution of `0`. -/
def getTileRangeForExtent (extent : Extent) (zoom : ℕ)
    (grid : XYZTileGrid) : Except Err TileRange :=
  match grid.resolutions.get? zoom with
  | none => .error .zoomNotFound
  | some resolution =>
    if resolution = 0 then .error .zoomNotFound
    else
      let tilesAtZoom : ℤ := 2 ^ zoom
      let tileSize := grid.tileSize
      let originX := grid.extent.minX
      let originY := grid.extent.maxY
      let tileMinX := ⌊(extent.minX - originX) / (resolution * tileSize)⌋
      let tileMaxX := ⌊(extent.maxX - originX) / (resolution * tileSize)⌋
      let tileMinY := ⌊(originY - extent.maxY) / (resolution * tileSize)⌋
      let tileMaxY := ⌊(originY - extent.minY) / (resolution * tileSize)⌋
      let minX := max 0 (min tileMinX tileMaxX)
      let maxX := min (tilesAtZoom - 1) (max tileMinX tileMaxX)
      let minY := max 0 (min tileMinY tileMaxY)
      let maxY := min (tilesAtZoom - 1) (max tileMinY tileMaxY)
      .ok { zoom := zoom, minX := minX, maxX := maxX, minY := minY
            maxY := maxY, count := (maxX - minX + 1) * (maxY - minY + 1) }

/-- JavaScript `s.includes(pat)`: does `pat` occur as a contiguous substring
of `s`?  (Every string includes the empty string.) -/
def includes (pat : Str) : Str → Bool
  | [] => pat.isPrefixOf ([] : Str)
  | c :: rest => pat.isPrefixOf (c :: rest) || includes pat rest

/-- The `proj4(sourceCRS, targetCRS, corner)` oracle.  A corner transformation
may throw (`Except.error ()`), and each returned coordinate may be
`undefined` (`Option.none`), exactly the two failure shapes `crs.ts`
handles. -/
abbrev ProjFn := String → String → ℚ × ℚ → Except Unit (Option ℚ × Option ℚ)

/-- The four corners sampled by `transformExtent`, in source order. -/
def cornersOf (extent : Extent) : List (ℚ × ℚ) :=
  [(extent.minX, extent.minY), (extent.maxX, extent.minY),
   (extent.maxX, extent.maxY), (extent.minX, extent.maxY)]

/-- `corners.map(corner => proj4(sourceCRS, targetCRS, corner))`: apply the
corner transformation left to right, the first exception propagating. -/
def mapCorners (f : ℚ × ℚ → Except Unit (Option ℚ × Option ℚ)) :
    List (ℚ × ℚ) → Except Unit (List (Option ℚ × Option ℚ))
  | [] => .ok []
  | c :: rest =>
    match f c with
    | .error e => .error e
    | .ok r =>
      match mapCorners f rest with
      | .error e => .error e
      | .ok rs => .ok (r :: rs)

/-- `src/crs.ts` `transformExtent`: transform all four corners, drop
`undefined` coordinates, and fail only when no valid X or no valid Y
remains.  An exception from the corner transformation propagates. -/
def transformExtent (proj : ProjFn) (extent : Extent)
    (sourceCRS targetCRS : String) : Except Err Extent :=
  match mapCorners (proj sourceCRS targetCRS) (cornersOf extent) with
  | .error _ => .error .transformThrow
  | .ok transformedCorners =>
    let xs := transformedCorners.filterMap Prod.fst
    let ys := transformedCorners.filterMap Prod.snd
    match xs, ys with
    | [], _ => .error .noValidCoordinates
    | _, [] => .error .noValidCoordinates
    | x :: xr, y :: yr =>
        .ok { minX := xr.foldl min x, minY := yr.foldl min y
              maxX := xr.foldl max x, maxY := yr.foldl max y }

/-- `src/crs.ts` `containsExtent`. -/
def containsExtent (extent1 extent2 : Extent) : Bool :=
  extent1.minX ≤ extent2.minX && extent1.maxX ≥ extent2.maxX &&
    extent1.minY ≤ extent2.minY && extent1.maxY ≥ extent2.maxY

/-- `src/tilegrid.ts` `getTileRangeForExtentAndZ`: transform the bbox to the
target CRS when the CRS identifiers differ, then compute the tile range. -/
def getTileRangeForExtentAndZ (proj : ProjFn) (bbox : Extent)
    (sourceCRS targetCRS : String) (zoom : ℕ) (grid : XYZTileGrid) :
    Except Err TileRange :=
  match if sourceCRS = targetCRS then .ok bbox
        else transformExtent proj bbox sourceCRS targetCRS with
  | .error e => .error e
  | .ok transformedExtent => getTileRangeForExtent transformedExtent zoom grid

/-- `src/types.ts` `TilesConfig` (the user-supplied configuration). -/
structure TilesConfig where
  url : Str
  subdomains : Option (List Str)
  bbox : Extent
  minZoom : ℕ
  maxZoom : ℕ
  crs : String
deriving DecidableEq, Repr

/-- `src/types.ts` `FetchTilesConfig` (the validated configuration). -/
structure FetchTilesConfig extends TilesConfig where
  totalCount : ℤ
  tileRanges : List TileRange
deriving DecidableEq, Repr

/-- `src/types.ts` `UnfetchedTile`. -/
structure UnfetchedTile where
  url : Str
  x : ℤ
  y : ℤ
  z : ℕ
deriving DecidableEq, Repr

/-- The ascending zoom levels `minZoom .. maxZoom` traversed by the range
loop of `processTilesConfig` (empty when `minZoom > maxZoom`). -/
def zoomList (minZoom maxZoom : ℕ) : List ℕ :=
  (List.range (maxZoom + 1 - minZoom)).map fun i => minZoom + i

/-- The range loop of `processTilesConfig`: one `getTileRangeForExtentAndZ`
call per zoom level, the first failure propagating. -/
def buildRanges (proj : ProjFn) (bbox : Extent) (crs : String)
    (grid : XYZTileGrid) : List ℕ → Except Err (List TileRange)
  | [] => .ok []
  | zoom :: rest =>
    match getTileRangeForExtentAndZ proj bbox "EPSG:4326" crs zoom grid with
    | .error e => .error e
    | .ok r =>
      match buildRanges proj bbox crs grid rest with
      | .error e => .error e
      | .ok rs => .ok (r :: rs)

/-- `[...counts].reduce((a, b) => a + b)`: JavaScript `reduce` without an
initial value throws on an empty array. -/
def reduceSum : List ℤ → Except Err ℤ
  | [] => .error .reduceEmptyArray
  | c :: cs => .ok (cs.foldl (· + ·) c)

/-- `src/tiles.ts` `processTilesConfig`.  The awaited `getCRSExtent(crs)`
result (a network lookup in `crs.ts`) is passed in as `crsExtentResult`, and
the `proj4` transformation used by `getTileRangeForExtentAndZ` as `proj`. -/
def processTilesConfig (proj : ProjFn) (crsExtentResult : Except Err Extent)
    (config : TilesConfig) : Except Err FetchTilesConfig :=
  match crsExtentResult with
  | .error e => .error e
  | .ok extent =>
    if ¬ containsExtent extent config.bbox then
      .error .bboxExceedsExtent
    else if includes phS config.url ∧ config.subdomains = none then
      .error .missingSubdomains
    else
      let tileGrid := createXYZTileGrid extent config.minZoom config.maxZoom
      match buildRanges proj config.bbox config.crs tileGrid
        (zoomList config.minZoom config.maxZoom) with
      | .error e => .error e
      | .ok tileRanges =>
        match reduceSum (tileRanges.map (·.count)) with
        | .error e => .error e
        | .ok totalCount =>
          .ok { toTilesConfig := config, totalCount := totalCount
                tileRanges := tileRanges }

/-- JavaScript `s.replace(pat, val)` with a plain-string pattern: replace
only the first occurrence of `pat` in `s` (no change when `pat` is absent;
an empty pattern matches at the start). -/
def replaceFirst (pat val : Str) : Str → Str
  | [] => if pat.isPrefixOf ([] : Str) then val else []
  | c :: rest =>
    if pat.isPrefixOf (c :: rest) then val ++ (c :: rest).drop pat.length
    else c :: replaceFirst pat val rest

/-- The decimal rendering of a natural number (`Number.prototype.toString`). -/
def natStr (n : ℕ) : Str := Nat.toDigits 10 n

/-- The decimal rendering of an integer (`Number.prototype.toString`). -/
def intStr (n : ℤ) : Str :=
  if n < 0 then '-' :: natStr n.natAbs else natStr n.toNat

/-- One URL construction step of `generateTileURLs` in `src/tiles.ts`:
substitute `{x}`, `{y}`, `{-y}`, `{z}` in that order, then—only when the
subdomain list is present and non-empty—advance the subdomain cursor by one
modulo the list length and substitute `{s}` with the subdomain at the new
cursor (`subdomains[i] ?? ""`).  Returns the URL and the new cursor. -/
def buildTileURL (urlTemplate : Str) (subdomains : Option (List Str))
    (cursor : ℕ) (x y : ℤ) (zoom : ℕ) : Str × ℕ :=
  let url := replaceFirst phZ (intStr zoom)
    (replaceFirst phMY (intStr (2 ^ zoom - 1 - y))
      (replaceFirst phY (intStr y)
        (replaceFirst phX (intStr x) urlTemplate)))
  match subdomains with
  | some l =>
    if l.length > 0 then
      let cursor2 := (cursor + 1) % l.length
      (replaceFirst phS (l.getD cursor2 []) url, cursor2)
    else (url, cursor)
  | none => (url, cursor)

/-- The integers `lo, lo+1, ..., hi` (empty when `hi < lo`), the values taken
by a `for (let v = lo; v <= hi; v++)` loop. -/
def intRange (lo hi : ℤ) : List ℤ :=
  (List.range (hi + 1 - lo).toNat).map fun (i : ℕ) => lo + (i : ℤ)

/-- The `(x, y)` cells of one `TileRange` in loop order: outer loop over X,
inner loop over Y, both ascending. -/
def rangeCells (r : TileRange) : List (ℤ × ℤ) :=
  (intRange r.minX r.maxX).flatMap fun x =>
    (intRange r.minY r.maxY).map fun y => (x, y)

/-- All `(zoom, x, y)` triples enumerated by `generateTileURLs`, in order:
the `TileRange` list order first, then X, then Y. -/
def allCells (tileRanges : List TileRange) : List (ℕ × ℤ × ℤ) :=
  tileRanges.flatMap fun r => (rangeCells r).map fun p => (r.zoom, p.1, p.2)

/-- The body of `generateTileURLs`: build one `UnfetchedTile` per cell,
threading the subdomain cursor through the whole enumeration. -/
def buildTiles (urlTemplate : Str) (subdomains : Option (List Str)) :
    ℕ → List (ℕ × ℤ × ℤ) → List UnfetchedTile
  | _, [] => []
  | cursor, (z, x, y) :: rest =>
    let (url, cursor2) := buildTileURL urlTemplate subdomains cursor x y z
    { url := url, x := x, y := y, z := z } ::
      buildTiles urlTemplate subdomains cursor2 rest

/-- `src/tiles.ts` `generateTileURLs` (the descriptor generator closed over a
`FetchTilesConfig` inside `fetchTiles`), as the finite list it yields.  The
subdomain cursor starts at `0`. -/
def generateTileURLs (config : FetchTilesConfig) : List UnfetchedTile :=
  buildTiles config.url config.subdomains 0 (allCells config.tileRanges)

/-- The part of a fetched `Blob` the code inspects: its MIME type. -/
structure Blob where
  type : Str
deriving DecidableEq, Repr

/-- The part of a `fetch` `Response` the code inspects. -/
structure Response where
  ok : Bool
  status : ℕ
  url : Str
  blob : Blob
deriving DecidableEq, Repr

/-- `src/types.ts` `FetchedTile`: the descriptor plus the downloaded blob. -/
structure FetchedTile extends UnfetchedTile where
  blob : Blob
deriving DecidableEq, Repr

/-- The two rejection reasons of `fetchTile` in `src/tiles.ts`. -/
inductive FetchError where
  /-- `GET <url> failed with <status> <statusText>`. -/
  | httpStatus (status : ℕ) (url : Str)
  /-- `Response is not an image`. -/
  | notAnImage
deriving DecidableEq, Repr

/-- `src/tiles.ts` `fetchTile`, as a function of the HTTP response the
network produced for the descriptor's URL: reject non-`ok` statuses, then
reject blobs whose MIME type does not start with `image/`. -/
def fetchTile (unfetchedTile : UnfetchedTile) (response : Response) :
    Except FetchError FetchedTile :=
  if response.ok then
    let blob := response.blob
    if ("image/".toList).isPrefixOf blob.type then
      .ok { toUnfetchedTile := unfetchedTile, blob := blob }
    else .error .notAnImage
  else .error (.httpStatus response.status response.url)

/-- One observable event of a `fetchTiles` run. -/
inductive FetchEvent where
  /-- A fetch was launched and added to `pendingDownloads`. -/
  | launched (t : UnfetchedTile)
  /-- A completed download was yielded to the caller. -/
  | yielded (t : FetchedTile)
  /-- A rejected download was raced: the generator throws and terminates. -/
  | failed (e : FetchError)
deriving DecidableEq, Repr

/-- A completion schedule, the nondeterminism oracle of the network: at the
`j`-th suspension on `Promise.race`, `sched j` picks which in-flight
operation settles (an index, taken modulo the set size) and the HTTP
response it settles with. -/
abbrev Schedule := ℕ → ℕ × Response

/-- A placeholder descriptor (never reached: the index is reduced modulo a
positive length before use). -/
def dummyTile : UnfetchedTile := { url := [], x := 0, y := 0, z := 0 }

/-- One of the two `while` loops of `fetchTiles`: race the in-flight set as
long as its size is at least `threshold` (`threshold = maxParallelDownloads`
inside the launch loop, `threshold = 1` for the final drain), `k` counting
the suspension points consumed so far.  A successful completion is yielded
and removed from the set (the `pendingDownloads.delete` continuation); a
rejection is propagated and the generator halts, the remaining in-flight
operations being abandoned, not cancelled.  Returns the events, the
remaining in-flight set, the next suspension index, and whether it halted.
`Promise.race` of an empty set never settles, so the loop also stops there. -/
def drainWhile (threshold : ℕ) (sched : Schedule)
    (pending : List UnfetchedTile) (k : ℕ) :
    List FetchEvent × List UnfetchedTile × ℕ × Bool :=
  if h : threshold ≤ pending.length ∧ pending ≠ [] then
    let pick := sched k
    let i := pick.1 % pending.length
    let t := pending.getD i dummyTile
    match fetchTile t pick.2 with
    | .ok ft =>
      let rest := drainWhile threshold sched (pending.eraseIdx i) (k + 1)
      (.yielded ft :: rest.1, rest.2)
    | .error e => ([.failed e], pending, k + 1, true)
  else ([], pending, k, false)
termination_by pending.length
decreasing_by
  have hpos : 0 < pending.length := List.length_pos.mpr h.2
  simp only [List.length_eraseIdx]
  split
  · omega
  · next hc => exact absurd (Nat.mod_lt _ hpos) hc

/-- The orchestration loop of `src/tiles.ts` `fetchTiles`: for each
descriptor, launch its fetch, add it to the in-flight set, then wait while
the set has at least `maxParallelDownloads` members; after the descriptor
sequence is exhausted, drain the set (`while (pendingDownloads.size > 0)`). -/
def fetchTilesRun (maxParallelDownloads : ℕ) (sched : Schedule) :
    List UnfetchedTile → List UnfetchedTile → ℕ → List FetchEvent
  | [], pending, k => (drainWhile 1 sched pending k).1
  | d :: rest, pending, k =>
    let pending2 := pending ++ [d]
    let w := drainWhile maxParallelDownloads sched pending2 k
    .launched d ::
      (w.1 ++ if w.2.2.2 then []
              else fetchTilesRun maxParallelDownloads sched rest w.2.1 w.2.2.1)

/-- `src/tiles.ts` `fetchTiles`: enumerate the descriptors of the validated
configuration and run the bounded-concurrency download loop under the given
completion schedule.  `maxParallelDownloads` defaults to `6`. -/
def fetchTiles (config : FetchTilesConfig) (sched : Schedule)
    (maxParallelDownloads : ℕ := 6) : List FetchEvent :=
  fetchTilesRun maxParallelDownloads sched (generateTileURLs config) [] 0

/-- The number of launch events in a trace. -/
def launches : List FetchEvent → ℕ
  | [] => 0
  | .launched _ :: rest => launches rest + 1
  | _ :: rest => launches rest

/-- The number of settled (yielded or failed) operations in a trace. -/
def settles : List FetchEvent → ℕ
  | [] => 0
  | .launched _ :: rest => settles rest
  | _ :: rest => settles rest + 1

/-- A trace made only of successfully yielded tiles. -/
def onlyYields : List FetchEvent → Bool
  | [] => true
  | .yielded _ :: rest => onlyYields rest
  | _ :: _ => false

/-- Once a failure event occurs in a trace, nothing follows it. -/
def failureTerminal : List FetchEvent → Prop
  | [] => True
  | .failed _ :: rest => rest = []
  | .launched _ :: rest => failureTerminal rest
  | .yielded _ :: rest => failureTerminal rest

/-!  ## Theorems  -/

/-- C2: for every extent and `maxZoom`, `createXYZTileGrid` computes one
resolution per zoom `0 .. maxZoom` (length `maxZoom + 1`), independent of
`minZoom`, with `resolutions[z] = max(width, height) / (tileSize * 2 ^ z)`,
`tileSize` defaulting to `256`; consequently each entry halves the previous
one. -/
theorem createXYZTileGrid_resolutions (extent : Extent)
    (minZoom maxZoom : ℕ) (tileSize : ℚ) :
    (createXYZTileGrid extent minZoom maxZoom tileSize).resolutions.length
        = maxZoom + 1
    ∧ (∀ z : ℕ, z ≤ maxZoom →
        (createXYZTileGrid extent minZoom maxZoom tileSize).resolutions.get? z
          = some (max (extent.maxX - extent.minX) (extent.maxY - extent.minY)
              / (tileSize * 2 ^ z)))
    ∧ (∀ minZoom' : ℕ,
        (createXYZTileGrid extent minZoom' maxZoom tileSize).resolutions
          = (createXYZTileGrid extent minZoom maxZoom tileSize).resolutions)
    ∧ (createXYZTileGrid extent minZoom maxZoom).tileSize = 256
    ∧ (∀ z : ℕ, ∀ r : ℚ, z < maxZoom →
        (createXYZTileGrid extent minZoom maxZoom tileSize).resolutions.get? z
          = some r →
        (createXYZTileGrid extent minZoom maxZoom tileSize).resolutions.get?
            (z + 1) = some (r / 2)) := by
  have hget : ∀ z : ℕ, z < maxZoom + 1 →
      (createXYZTileGrid extent minZoom maxZoom tileSize).resolutions.get? z
        = some (max (extent.maxX - extent.minX) (extent.maxY - extent.minY)
            / (tileSize * 2 ^ z)) := by
    intro z hz
    simp [createXYZTileGrid, calculateResolutions, List.get?_eq_getElem?,
      List.getElem?_map, List.getElem?_range hz]
  refine ⟨?_, ?_, ?_, ?_, ?_⟩
  · simp [createXYZTileGrid, calculateResolutions]
  · intro z hz
    exact hget z (Nat.lt_succ_of_le hz)
  · intro m'
    simp [createXYZTileGrid]
  · simp [createXYZTileGrid]
  · intro z r hz hr
    rw [hget z (Nat.lt_succ_of_lt hz)] at hr
    rw [hget (z + 1) (Nat.succ_lt_succ hz)]
    have hr' := Option.some.inj hr
    subst hr'
    rw [div_div]
    ring_nf

/-- C1 (amended): every `TileRange` returned by `getTileRangeForExtent`
satisfies `0 ≤ minX`, `maxX ≤ 2^zoom − 1`, `0 ≤ minY`, `maxY ≤ 2^zoom − 1`;
the chain `minX ≤ maxX` (resp. `minY ≤ maxY`) additionally holds whenever
`minX ≤ 2^zoom − 1` and `0 ≤ maxX` (resp. for Y), which is the case whenever
the unclamped tile rectangle meets `[0, 2^zoom − 1]`; for a target extent
entirely beyond the grid extent on one side the clamped range inverts. -/
theorem getTileRangeForExtent_clamped (extent : Extent) (zoom : ℕ)
    (grid : XYZTileGrid) (r : TileRange)
    (h : getTileRangeForExtent extent zoom grid = .ok r) :
    (0 ≤ r.minX ∧ r.maxX ≤ 2 ^ zoom - 1
      ∧ 0 ≤ r.minY ∧ r.maxY ≤ 2 ^ zoom - 1)
    ∧ (r.minX ≤ 2 ^ zoom - 1 → 0 ≤ r.maxX → r.minX ≤ r.maxX)
    ∧ (r.minY ≤ 2 ^ zoom - 1 → 0 ≤ r.maxY → r.minY ≤ r.maxY) := by
  unfold getTileRangeForExtent at h
  split at h
  · exact absurd h (by simp)
  · split at h
    · exact absurd h (by simp)
    · have hr := (Except.ok.inj h).symm
      subst hr
      refine ⟨⟨le_max_left _ _, min_le_left _ _,
        le_max_left _ _, min_le_left _ _⟩, ?_, ?_⟩ <;>
      · intro h1 h2
        refine le_min h1 (max_le (le_trans h2 (min_le_right _ _)) ?_)
        exact le_trans (min_le_left _ _) (le_max_left _ _)

/-- C1 witness: a target inside the grid extent, at zoom 0, where the full
chain `0 ≤ minX ≤ maxX ≤ 2^zoom − 1` holds. -/
theorem getTileRangeForExtent_clamped_witness :
    getTileRangeForExtent ⟨0, 0, 1, 1⟩ 0 (createXYZTileGrid ⟨0, 0, 1, 1⟩ 0 0)
        = Except.ok ⟨0, 0, 0, 0, 0, 1⟩
    ∧ (⟨0, 0, 0, 0, 0, 1⟩ : TileRange).minX
        ≤ (⟨0, 0, 0, 0, 0, 1⟩ : TileRange).maxX :=
  ⟨by norm_num [getTileRangeForExtent, createXYZTileGrid, calculateResolutions],
    (getTileRangeForExtent_clamped ⟨0, 0, 1, 1⟩ 0
      (createXYZTileGrid ⟨0, 0, 1, 1⟩ 0 0) ⟨0, 0, 0, 0, 0, 1⟩
      (by norm_num [getTileRangeForExtent, createXYZTileGrid,
        calculateResolutions])).2.1 (by decide) (by decide)⟩

/-- C1 counterexample: for the grid over `[0, 0, 1, 1]` at zoom 0 and the
target extent `[2, 0, 3, 1]` lying entirely to the right of the grid,
`getTileRangeForExtent` returns `minX = 2 > maxX = 0` (and `minX > 2^0 − 1`),
refuting `0 ≤ minX ≤ maxX ≤ 2^zoom − 1` for targets outside the grid. -/
theorem getTileRangeForExtent_outside_counterexample :
    getTileRangeForExtent ⟨2, 0, 3, 1⟩ 0 (createXYZTileGrid ⟨0, 0, 1, 1⟩ 0 0)
        = Except.ok ⟨0, 2, 0, 0, 0, -1⟩
    ∧ ¬ ((⟨0, 2, 0, 0, 0, -1⟩ : TileRange).minX
          ≤ (⟨0, 2, 0, 0, 0, -1⟩ : TileRange).maxX
        ∧ (⟨0, 2, 0, 0, 0, -1⟩ : TileRange).minX ≤ 2 ^ (0 : ℕ) - 1) :=
  ⟨by norm_num [getTileRangeForExtent, createXYZTileGrid, calculateResolutions],
    by decide⟩

/-- C2 witness: for the unit-square extent with `maxZoom = 1`, the entry at
zoom `1` is half the entry at zoom `0`. -/
theorem createXYZTileGrid_resolutions_witness :
    (createXYZTileGrid ⟨0, 0, 1, 1⟩ 0 1 256).resolutions.get? 1
      = some ((1 / 256 : ℚ) / 2) :=
  (createXYZTileGrid_resolutions ⟨0, 0, 1, 1⟩ 0 1 256).2.2.2.2 0 (1 / 256)
    (by decide)
    (by norm_num [createXYZTileGrid, calculateResolutions])

/-- `transformExtent` only ever throws the corner-transformation error or the
no-valid-coordinates error. -/
theorem transformExtent_error_shape (proj : ProjFn) (e : Extent)
    (s t : String) (err : Err)
    (h : transformExtent proj e s t = .error err) :
    err = .transformThrow ∨ err = .noValidCoordinates := by
  unfold transformExtent at h
  split at h
  · exact Or.inl (Except.error.inj h).symm
  · dsimp only at h
    split at h
    · exact Or.inr (Except.error.inj h).symm
    · exact Or.inr (Except.error.inj h).symm
    · exact absurd h (by simp)

/-- `getTileRangeForExtent` only ever throws the zoom-lookup error. -/
theorem getTileRangeForExtent_error_shape (e : Extent) (zoom : ℕ)
    (grid : XYZTileGrid) (err : Err)
    (h : getTileRangeForExtent e zoom grid = .error err) :
    err = .zoomNotFound := by
  unfold getTileRangeForExtent at h
  split at h
  · exact (Except.error.inj h).symm
  · split at h
    · exact (Except.error.inj h).symm
    · exact absurd h (by simp)

/-- `getTileRangeForExtentAndZ` never throws the missing-subdomains error. -/
theorem getTileRangeForExtentAndZ_ne_missingSubdomains (proj : ProjFn)
    (bbox : Extent) (s t : String) (zoom : ℕ) (grid : XYZTileGrid) :
    getTileRangeForExtentAndZ proj bbox s t zoom grid
      ≠ .error .missingSubdomains := by
  intro h
  unfold getTileRangeForExtentAndZ at h
  split at h
  · next e heq =>
    split at heq
    · exact absurd heq (by simp)
    · have := transformExtent_error_shape _ _ _ _ _ heq
      have he := Except.error.inj h
      subst he
      rcases this with h' | h' <;> exact absurd h' (by simp)
  · have := getTileRangeForExtent_error_shape _ _ _ _ h
    exact absurd this (by simp)

/-- `buildRanges` never throws the missing-subdomains error. -/
theorem buildRanges_ne_missingSubdomains (proj : ProjFn) (bbox : Extent)
    (crs : String) (grid : XYZTileGrid) (zs : List ℕ) :
    buildRanges proj bbox crs grid zs ≠ .error .missingSubdomains := by
  induction zs with
  | nil => simp [buildRanges]
  | cons z rest ih =>
    intro h
    unfold buildRanges at h
    split at h
    · next heq =>
      have he := Except.error.inj h
      subst he
      exact getTileRangeForExtentAndZ_ne_missingSubdomains _ _ _ _ _ _ heq
    · split at h
      · next heq =>
        have he := Except.error.inj h
        subst he
        exact ih heq
      · exact absurd h (by simp)

/-- `reduceSum` only ever throws the empty-array error. -/
theorem reduceSum_error_shape (l : List ℤ) (err : Err)
    (h : reduceSum l = .error err) : err = .reduceEmptyArray := by
  unfold reduceSum at h
  split at h
  · exact (Except.error.inj h).symm
  · exact absurd h (by simp)

/-- C7 (amended): given that the CRS extent resolved and the bounding-box
containment check passed, `processTilesConfig` fails with the
missing-subdomains error exactly when the url template contains `{s}` and no
subdomain list was supplied (`undefined`; an empty list counts as supplied);
in particular, when the url has no `{s}` the error never arises.  The check
runs during configuration building, before any tile fetch, but after the
CRS-extent lookup that `processTilesConfig` awaits first. -/
theorem processTilesConfig_missingSubdomains_iff (proj : ProjFn)
    (extent : Extent) (config : TilesConfig)
    (hc : containsExtent extent config.bbox = true) :
    processTilesConfig proj (.ok extent) config = .error .missingSubdomains
      ↔ (includes phS config.url = true ∧ config.subdomains = none) := by
  unfold processTilesConfig
  dsimp only
  rw [if_neg (by simp [hc])]
  by_cases hs : includes phS config.url = true ∧ config.subdomains = none
  · rw [if_pos (by simpa using hs)]
    simpa using hs
  · rw [if_neg (by simpa using hs)]
    constructor
    · intro h
      split at h
      · next heq =>
        have he := Except.error.inj h
        subst he
        exact absurd heq (buildRanges_ne_missingSubdomains _ _ _ _ _)
      · split at h
        · next heq =>
          have he := Except.error.inj h
          subst he
          exact absurd (reduceSum_error_shape _ _ heq) (by simp)
        · exact absurd h (by simp)
    · intro h
      exact absurd h hs

/-- C7 witness: a url containing `{s}` with no subdomains supplied fails
with the missing-subdomains error; the same url with an empty subdomain
list does not. -/
theorem processTilesConfig_missingSubdomains_witness :
    processTilesConfig (fun _ _ c => .ok (some c.1, some c.2)) (.ok ⟨0, 0, 1, 1⟩)
      { url := phS, subdomains := none, bbox := ⟨0, 0, 1, 1⟩,
        minZoom := 0, maxZoom := 0, crs := "EPSG:4326" }
      = .error .missingSubdomains :=
  (processTilesConfig_missingSubdomains_iff
    (fun _ _ c => .ok (some c.1, some c.2)) ⟨0, 0, 1, 1⟩
    { url := phS, subdomains := none, bbox := ⟨0, 0, 1, 1⟩,
      minZoom := 0, maxZoom := 0, crs := "EPSG:4326" }
    (by decide)).mpr ⟨by decide, rfl⟩

/-- A corner-transformation exception propagates through `mapCorners`. -/
theorem mapCorners_error_of_mem (f : ℚ × ℚ → Except Unit (Option ℚ × Option ℚ))
    (l : List (ℚ × ℚ)) (c : ℚ × ℚ) (hc : c ∈ l) (h : f c = .error ()) :
    mapCorners f l = .error () := by
  induction l with
  | nil => cases hc
  | cons a rest ih =>
    rcases List.mem_cons.mp hc with rfl | hmem
    · simp [mapCorners, h]
    · cases hf : f a with
      | error e => cases e; simp [mapCorners, hf]
      | ok r => simp [mapCorners, hf, ih hmem]

/-- C7 counterexample: a url containing `{s}` with no subdomains supplied,
but with a bounding box outside the CRS extent: the build fails with the
bounding-box error, not the missing-subdomains error, because the
containment check precedes the subdomain check — refuting the unconditional
"fails with MissingSubdomains if and only if" claim (and the CRS-extent
network lookup precedes both checks). -/
theorem processTilesConfig_bbox_before_subdomains_counterexample :
    includes phS phS = true
    ∧ processTilesConfig (fun _ _ c => .ok (some c.1, some c.2))
        (.ok ⟨0, 0, 1, 1⟩)
        { url := phS, subdomains := none, bbox := ⟨2, 2, 3, 3⟩,
          minZoom := 0, maxZoom := 0, crs := "EPSG:4326" }
        = .error .bboxExceedsExtent := by
  constructor
  · decide
  · norm_num +decide [processTilesConfig, containsExtent]

/-- C6 (amended): `transformExtent` transforms the four corners of the
extent independently and, when all four yield coordinates, returns the
axis-aligned bounding box (the minima and maxima of the transformed X and Y
values) of the four transformed points; it fails when the corner
transformation throws on any corner, and when no corner yields a valid
coordinate; corners that merely yield `undefined` coordinates are skipped
rather than failing the call. -/
theorem transformExtent_four_corners (proj : ProjFn) (e : Extent)
    (s t : String) :
    (∀ x1 y1 x2 y2 x3 y3 x4 y4 : ℚ,
      proj s t (e.minX, e.minY) = .ok (some x1, some y1) →
      proj s t (e.maxX, e.minY) = .ok (some x2, some y2) →
      proj s t (e.maxX, e.maxY) = .ok (some x3, some y3) →
      proj s t (e.minX, e.maxY) = .ok (some x4, some y4) →
      transformExtent proj e s t
        = .ok ⟨min (min (min x1 x2) x3) x4, min (min (min y1 y2) y3) y4,
               max (max (max x1 x2) x3) x4, max (max (max y1 y2) y3) y4⟩)
    ∧ ((∃ c ∈ cornersOf e, proj s t c = .error ()) →
        transformExtent proj e s t = .error .transformThrow)
    ∧ ((∀ c ∈ cornersOf e, proj s t c = .ok (none, none)) →
        transformExtent proj e s t = .error .noValidCoordinates) := by
  refine ⟨?_, ?_, ?_⟩
  · intro x1 y1 x2 y2 x3 y3 x4 y4 h1 h2 h3 h4
    simp [transformExtent, cornersOf, mapCorners, h1, h2, h3, h4]
  · rintro ⟨c, hc, herr⟩
    unfold transformExtent
    rw [mapCorners_error_of_mem _ _ _ hc herr]
  · intro hall
    have h1 := hall (e.minX, e.minY) (by simp [cornersOf])
    have h2 := hall (e.maxX, e.minY) (by simp [cornersOf])
    have h3 := hall (e.maxX, e.maxY) (by simp [cornersOf])
    have h4 := hall (e.minX, e.maxY) (by simp [cornersOf])
    simp [transformExtent, cornersOf, mapCorners, h1, h2, h3, h4]

/-- C6 witness: with an identity-like corner transformation every corner of
the unit square transforms, and the result is the bounding box of the four
transformed corners. -/
theorem transformExtent_four_corners_witness :
    transformExtent (fun _ _ c => .ok (some c.1, some c.2)) ⟨0, 0, 1, 1⟩
      "EPSG:4326" "EPSG:3857" = .ok ⟨min (min (min 0 1) 1) 0,
        min (min (min 0 0) 1) 1, max (max (max 0 1) 1) 0,
        max (max (max 0 0) 1) 1⟩ :=
  (transformExtent_four_corners (fun _ _ c => .ok (some c.1, some c.2))
    ⟨0, 0, 1, 1⟩ "EPSG:4326" "EPSG:3857").1 0 0 1 0 1 1 0 1
    rfl rfl rfl rfl

/-- The corner transformation used in the C6 counterexample: the corner
`(0, 0)` yields no valid coordinates (it fails to transform), every other
corner transforms to itself. -/
def projPartial : ProjFn := fun _ _ c =>
  if c = ((0 : ℚ), (0 : ℚ)) then .ok (none, none)
  else .ok (some c.1, some c.2)

/-- C6 counterexample: the corner `(0, 0)` of the extent `[0, 0, 1, 1]`
fails to transform (it yields no coordinates), yet `transformExtent`
succeeds, returning the bounding box of the three remaining corners —
refuting the claim that the call fails whenever any one corner fails. -/
theorem transformExtent_partial_corner_counterexample :
    projPartial "a" "b" ((0 : ℚ), (0 : ℚ)) = .ok (none, none)
    ∧ transformExtent projPartial ⟨0, 0, 1, 1⟩ "a" "b" = .ok ⟨0, 0, 1, 1⟩ := by
  constructor
  · simp [projPartial]
  · norm_num [transformExtent, cornersOf, mapCorners, projPartial,
      List.filterMap_cons, List.filterMap_nil, min_def, max_def]

/-- Inversion of a successful `processTilesConfig` run. -/
theorem processTilesConfig_ok_inv (proj : ProjFn)
    (extRes : Except Err Extent) (config : TilesConfig)
    (fc : FetchTilesConfig)
    (h : processTilesConfig proj extRes config = .ok fc) :
    ∃ extent, extRes = .ok extent
      ∧ containsExtent extent config.bbox = true
      ∧ buildRanges proj config.bbox config.crs
          (createXYZTileGrid extent config.minZoom config.maxZoom)
          (zoomList config.minZoom config.maxZoom) = .ok fc.tileRanges
      ∧ reduceSum (fc.tileRanges.map (·.count)) = .ok fc.totalCount
      ∧ fc.toTilesConfig = config := by
  unfold processTilesConfig at h
  split at h
  · exact absurd h (by simp)
  · next extent =>
    refine ⟨extent, rfl, ?_⟩
    split at h
    · exact absurd h (by simp)
    · next hcont =>
      split at h
      · exact absurd h (by simp)
      · dsimp only at h
        split at h
        · exact absurd h (by simp)
        · next tileRanges hbr =>
          split at h
          · exact absurd h (by simp)
          · next totalCount hrs =>
            have hfc := (Except.ok.inj h).symm
            subst hfc
            exact ⟨by simpa using hcont, hbr, hrs, rfl⟩

/-- Inversion of a successful `buildRanges` run: the produced ranges match
the zoom list pointwise. -/
theorem buildRanges_ok_forall2 (proj : ProjFn) (bbox : Extent) (crs : String)
    (grid : XYZTileGrid) (zs : List ℕ) (rs : List TileRange)
    (h : buildRanges proj bbox crs grid zs = .ok rs) :
    List.Forall₂ (fun z r =>
      getTileRangeForExtentAndZ proj bbox "EPSG:4326" crs z grid = .ok r)
      zs rs := by
  induction zs generalizing rs with
  | nil =>
    unfold buildRanges at h
    have := (Except.ok.inj h).symm
    subst this
    exact .nil
  | cons z rest ih =>
    unfold buildRanges at h
    split at h
    · exact absurd h (by simp)
    · next r heq =>
      split at h
      · exact absurd h (by simp)
      · next rs' heq2 =>
        have := (Except.ok.inj h).symm
        subst this
        exact .cons heq (ih _ heq2)

/-- A successful `getTileRangeForExtent` stamps the requested zoom on the
result and computes `count` as the product of the two side lengths. -/
theorem getTileRangeForExtent_ok_shape (e : Extent) (zoom : ℕ)
    (grid : XYZTileGrid) (r : TileRange)
    (h : getTileRangeForExtent e zoom grid = .ok r) :
    r.zoom = zoom
      ∧ r.count = (r.maxX - r.minX + 1) * (r.maxY - r.minY + 1) := by
  unfold getTileRangeForExtent at h
  split at h
  · exact absurd h (by simp)
  · split at h
    · exact absurd h (by simp)
    · have := (Except.ok.inj h).symm
      subst this
      exact ⟨rfl, rfl⟩

/-- A successful `getTileRangeForExtentAndZ` stamps the requested zoom and
the product `count` on the result. -/
theorem getTileRangeForExtentAndZ_ok_shape (proj : ProjFn) (bbox : Extent)
    (s t : String) (zoom : ℕ) (grid : XYZTileGrid) (r : TileRange)
    (h : getTileRangeForExtentAndZ proj bbox s t zoom grid = .ok r) :
    r.zoom = zoom
      ∧ r.count = (r.maxX - r.minX + 1) * (r.maxY - r.minY + 1) := by
  unfold getTileRangeForExtentAndZ at h
  split at h
  · exact absurd h (by simp)
  · exact getTileRangeForExtent_ok_shape _ _ _ _ h

/-- A successful `reduceSum` is the sum of the list. -/
theorem reduceSum_ok (l : List ℤ) (s : ℤ) (h : reduceSum l = .ok s) :
    s = l.sum := by
  have hfold : ∀ (cs : List ℤ) (c : ℤ), cs.foldl (· + ·) c = c + cs.sum := by
    intro cs
    induction cs with
    | nil => simp
    | cons d ds ih => intro c; simp [ih, add_assoc]
  unfold reduceSum at h
  split at h
  · exact absurd h (by simp)
  · next c cs =>
    have := (Except.ok.inj h).symm
    subst this
    simp [hfold]

/-- Membership on the right of a `Forall2`. -/
theorem forall2_exists_left {α β : Type} {R : α → β → Prop}
    {as : List α} {bs : List β} (h : List.Forall₂ R as bs) (b : β)
    (hb : b ∈ bs) : ∃ a ∈ as, R a b := by
  induction h with
  | nil => cases hb
  | cons hR _ ih =>
    rcases List.mem_cons.mp hb with rfl | hmem
    · exact ⟨_, List.mem_cons_self _ _, hR⟩
    · obtain ⟨a, ha, hr⟩ := ih hmem
      exact ⟨a, List.mem_cons_of_mem _ ha, hr⟩

/-- If every produced range carries its zoom, mapping `zoom` over the ranges
returns the zoom list. -/
theorem map_zoom_of_forall2 {zs : List ℕ} {rs : List TileRange}
    (h : List.Forall₂ (fun z r => r.zoom = z) zs rs) :
    rs.map TileRange.zoom = zs := by
  induction h with
  | nil => rfl
  | cons hR _ ih => simp [ih, hR]

/-- C5: for every valid input configuration with `minZoom ≤ maxZoom`,
`processTilesConfig` produces `maxZoom − minZoom + 1` tile ranges whose
zooms are `minZoom, minZoom + 1, ..., maxZoom` in order, with `totalCount`
the sum of the per-range `count` and each `count` the product
`(maxX − minX + 1) * (maxY − minY + 1)`. -/
theorem processTilesConfig_ranges_shape (proj : ProjFn)
    (extRes : Except Err Extent) (config : TilesConfig)
    (fc : FetchTilesConfig)
    (h : processTilesConfig proj extRes config = .ok fc)
    (hz : config.minZoom ≤ config.maxZoom) :
    fc.tileRanges.length = config.maxZoom - config.minZoom + 1
    ∧ fc.tileRanges.map TileRange.zoom
        = zoomList config.minZoom config.maxZoom
    ∧ fc.totalCount = (fc.tileRanges.map TileRange.count).sum
    ∧ ∀ r ∈ fc.tileRanges,
        r.count = (r.maxX - r.minX + 1) * (r.maxY - r.minY + 1) := by
  obtain ⟨extent, -, -, hbr, hrs, -⟩ :=
    processTilesConfig_ok_inv proj extRes config fc h
  have hf2 := buildRanges_ok_forall2 _ _ _ _ _ _ hbr
  have hzoom : List.Forall₂ (fun z r => TileRange.zoom r = z)
      (zoomList config.minZoom config.maxZoom) fc.tileRanges :=
    hf2.imp fun z r hzr =>
      (getTileRangeForExtentAndZ_ok_shape _ _ _ _ _ _ _ hzr).1
  refine ⟨?_, map_zoom_of_forall2 hzoom, reduceSum_ok _ _ hrs, ?_⟩
  · have hlen := hf2.length_eq
    simp only [zoomList, List.length_map, List.length_range] at hlen
    omega
  · intro r hr
    obtain ⟨z, -, hzr⟩ := forall2_exists_left hf2 r hr
    exact (getTileRangeForExtentAndZ_ok_shape _ _ _ _ _ _ _ hzr).2

/-- The configuration of the C5 witness run: a `{s}`-free url, no
subdomains, the unit-square bbox and CRS extent, zooms `0 .. 1`. -/
def cfgW : TilesConfig :=
  { url := ['u'], subdomains := none, bbox := ⟨0, 0, 1, 1⟩,
    minZoom := 0, maxZoom := 1, crs := "EPSG:4326" }

/-- The validated configuration the C5 witness run produces: one tile at
zoom 0, four tiles at zoom 1. -/
def fcW : FetchTilesConfig :=
  { toTilesConfig := cfgW, totalCount := 5,
    tileRanges := [⟨0, 0, 0, 0, 0, 1⟩, ⟨1, 0, 1, 0, 1, 4⟩] }

/-- C5 witness: a concrete successful `processTilesConfig` run with
`minZoom = 0 ≤ 1 = maxZoom`, on which the claimed `totalCount` equation is
instantiated. -/
theorem processTilesConfig_ranges_shape_witness :
    processTilesConfig (fun _ _ c => .ok (some c.1, some c.2))
        (.ok ⟨0, 0, 1, 1⟩) cfgW = .ok fcW
    ∧ fcW.totalCount = (fcW.tileRanges.map TileRange.count).sum :=
  have hrun : processTilesConfig (fun _ _ c => .ok (some c.1, some c.2))
      (.ok ⟨0, 0, 1, 1⟩) cfgW = .ok fcW := by
    norm_num +decide [processTilesConfig, cfgW, fcW, containsExtent, includes,
      phS, lb, rb, buildRanges, zoomList, getTileRangeForExtentAndZ,
      getTileRangeForExtent, createXYZTileGrid, calculateResolutions,
      reduceSum, List.range_succ]
  ⟨hrun, (processTilesConfig_ranges_shape _ _ _ _ hrun (by decide)).2.2.1⟩

/-- The enumeration order of descriptors: strictly ascending zoom, then
strictly ascending X, then strictly ascending Y. -/
def tileLt (a b : UnfetchedTile) : Prop :=
  a.z < b.z ∨ (a.z = b.z ∧ (a.x < b.x ∨ (a.x = b.x ∧ a.y < b.y)))

/-- The same order on bare `(zoom, x, y)` cells. -/
def cellLt (p q : ℕ × ℤ × ℤ) : Prop :=
  p.1 < q.1 ∨ (p.1 = q.1 ∧ (p.2.1 < q.2.1 ∨ (p.2.1 = q.2.1 ∧ p.2.2 < q.2.2)))

/-- `buildTiles` stamps each cell's coordinates on its descriptor: the
projection to `(z, x, y)` returns the cell list, whatever the cursor. -/
theorem buildTiles_map_proj (u : Str) (s : Option (List Str)) :
    ∀ (c : ℕ) (cells : List (ℕ × ℤ × ℤ)),
      (buildTiles u s c cells).map (fun t => (t.z, t.x, t.y)) = cells := by
  intro c cells
  induction cells generalizing c with
  | nil => rfl
  | cons p rest ih => cases p with | mk z q => cases q; simp [buildTiles, ih]

/-- `buildTiles` produces one descriptor per cell. -/
theorem buildTiles_length (u : Str) (s : Option (List Str)) (c : ℕ)
    (cells : List (ℕ × ℤ × ℤ)) :
    (buildTiles u s c cells).length = cells.length := by
  have := congrArg List.length (buildTiles_map_proj u s c cells)
  simpa using this

/-- Membership in `intRange` is the inclusive interval. -/
theorem mem_intRange (a lo hi : ℤ) : a ∈ intRange lo hi ↔ lo ≤ a ∧ a ≤ hi := by
  simp only [intRange, List.mem_map, List.mem_range]
  constructor
  · rintro ⟨i, hlt, rfl⟩
    omega
  · rintro ⟨h1, h2⟩
    exact ⟨(a - lo).toNat, by omega, by omega⟩

/-- The length of `intRange`. -/
theorem intRange_length (lo hi : ℤ) :
    (intRange lo hi).length = (hi + 1 - lo).toNat := by
  rw [intRange, List.length_map, List.length_range]

/-- `intRange` is strictly increasing. -/
theorem intRange_pairwise (lo hi : ℤ) :
    (intRange lo hi).Pairwise (· < ·) := by
  rw [intRange, List.pairwise_map]
  exact (List.pairwise_lt_range _).imp fun h => by omega

/-- `zoomList` is strictly increasing. -/
theorem zoomList_pairwise (a b : ℕ) : (zoomList a b).Pairwise (· < ·) := by
  rw [zoomList, List.pairwise_map]
  exact (List.pairwise_lt_range _).imp fun h => by omega

/-- Membership in `zoomList` is the inclusive zoom interval. -/
theorem mem_zoomList (z a b : ℕ) : z ∈ zoomList a b ↔ a ≤ z ∧ z < b + 1 := by
  simp only [zoomList, List.mem_map, List.mem_range]
  constructor
  · rintro ⟨i, hlt, rfl⟩
    omega
  · rintro ⟨h1, h2⟩
    exact ⟨z - a, by omega, by omega⟩

/-- The cells of one range are sorted by X, then Y. -/
theorem rangeCells_pairwise (r : TileRange) :
    (rangeCells r).Pairwise
      (fun p q : ℤ × ℤ => p.1 < q.1 ∨ (p.1 = q.1 ∧ p.2 < q.2)) := by
  rw [rangeCells]
  have hys := intRange_pairwise r.minY r.maxY
  have : ∀ xs : List ℤ, xs.Pairwise (· < ·) →
      (xs.flatMap fun x => (intRange r.minY r.maxY).map fun y => (x, y)).Pairwise
        (fun p q : ℤ × ℤ => p.1 < q.1 ∨ (p.1 = q.1 ∧ p.2 < q.2)) := by
    intro xs
    induction xs with
    | nil => intro _; simp
    | cons x xs ih =>
      intro hxs
      rcases List.pairwise_cons.mp hxs with ⟨hall, hxs'⟩
      rw [List.flatMap_cons, List.pairwise_append]
      refine ⟨?_, ih hxs', ?_⟩
      · rw [List.pairwise_map]
        exact hys.imp fun h => Or.inr ⟨rfl, h⟩
      · intro p hp q hq
        obtain ⟨y, -, rfl⟩ := List.mem_map.mp hp
        obtain ⟨x', hx', hq'⟩ := List.mem_flatMap.mp hq
        obtain ⟨y', -, rfl⟩ := List.mem_map.mp hq'
        exact Or.inl (hall x' hx')
  exact this _ (intRange_pairwise r.minX r.maxX)

/-- The full cell enumeration is sorted by zoom, then X, then Y, provided
the ranges appear in strictly ascending zoom order. -/
theorem allCells_pairwise (rs : List TileRange)
    (h : rs.Pairwise fun r r' => r.zoom < r'.zoom) :
    (allCells rs).Pairwise cellLt := by
  rw [allCells]
  induction rs with
  | nil => exact List.Pairwise.nil
  | cons r rest ih =>
    rcases List.pairwise_cons.mp h with ⟨hall, hrest⟩
    rw [List.flatMap_cons, List.pairwise_append]
    refine ⟨?_, ih hrest, ?_⟩
    · rw [List.pairwise_map]
      refine (rangeCells_pairwise r).imp fun hpq => ?_
      rcases hpq with h' | ⟨heq, h'⟩
      · exact Or.inr ⟨rfl, Or.inl h'⟩
      · exact Or.inr ⟨rfl, Or.inr ⟨heq, h'⟩⟩
    · intro p hp q hq
      obtain ⟨y, -, rfl⟩ := List.mem_map.mp hp
      obtain ⟨r', hr', hq'⟩ := List.mem_flatMap.mp hq
      obtain ⟨p', -, rfl⟩ := List.mem_map.mp hq'
      exact Or.inl (hall r' hr')

/-- For a proper (non-inverted) range, the number of cells is the product of
the two side lengths. -/
theorem rangeCells_length_of_proper (r : TileRange)
    (hx : r.minX ≤ r.maxX) (hy : r.minY ≤ r.maxY) :
    ((rangeCells r).length : ℤ)
      = (r.maxX - r.minX + 1) * (r.maxY - r.minY + 1) := by
  rw [rangeCells, List.length_flatMap]
  simp only [Function.comp_def]
  have hmap : ((intRange r.minX r.maxX).map
        fun x => ((intRange r.minY r.maxY).map fun y => (x, y)).length)
      = (intRange r.minX r.maxX).map
        fun _ => (r.maxY + 1 - r.minY).toNat := by
    refine List.map_congr_left fun x _ => ?_
    rw [List.length_map, intRange_length]
  rw [hmap, List.map_const', List.sum_replicate, smul_eq_mul, intRange_length]
  have h1 : ((r.maxX + 1 - r.minX).toNat : ℤ) = r.maxX + 1 - r.minX :=
    Int.toNat_of_nonneg (by omega)
  have h2 : ((r.maxY + 1 - r.minY).toNat : ℤ) = r.maxY + 1 - r.minY :=
    Int.toNat_of_nonneg (by omega)
  push_cast [h1, h2]
  ring

/-- A successful `reduceSum` needs a non-empty list (`[].reduce` throws). -/
theorem reduceSum_ok_ne_nil (l : List ℤ) (s : ℤ) (h : reduceSum l = .ok s) :
    l ≠ [] := by
  intro hl
  subst hl
  simp [reduceSum] at h

/-- A successful `processTilesConfig` forces `minZoom ≤ maxZoom`: otherwise
the range list is empty and the `[].reduce` call throws. -/
theorem processTilesConfig_ok_minZoom_le (proj : ProjFn)
    (extRes : Except Err Extent) (config : TilesConfig)
    (fc : FetchTilesConfig)
    (h : processTilesConfig proj extRes config = .ok fc) :
    config.minZoom ≤ config.maxZoom := by
  obtain ⟨extent, -, -, hbr, hrs, -⟩ :=
    processTilesConfig_ok_inv proj extRes config fc h
  have hne : fc.tileRanges ≠ [] := by
    intro hnil
    exact reduceSum_ok_ne_nil _ _ hrs (by simp [hnil])
  have hlen := (buildRanges_ok_forall2 _ _ _ _ _ _ hbr).length_eq
  simp only [zoomList, List.length_map, List.length_range] at hlen
  have hpos := List.length_pos.mpr hne
  omega

/-- Casting a sum of natural lengths to `ℤ` matches a sum of integer counts
when they agree entrywise. -/
theorem sum_map_cast_congr (rs : List TileRange) (f : TileRange → ℕ)
    (g : TileRange → ℤ) (h : ∀ r ∈ rs, (f r : ℤ) = g r) :
    (((rs.map f).sum : ℕ) : ℤ) = (rs.map g).sum := by
  induction rs with
  | nil => simp
  | cons r rest ih =>
    simp only [List.map_cons, List.sum_cons]
    rw [Nat.cast_add, h r (List.mem_cons_self r rest),
      ih fun r' hr' => h r' (List.mem_cons_of_mem _ hr')]

/-- C3 (amended): for every configuration produced by `processTilesConfig`
all of whose tile ranges are proper (`minX ≤ maxX` and `minY ≤ maxY` — which
the code does not itself guarantee when the transformed bbox leaves the grid
extent), the descriptor generator of `fetchTiles` yields exactly
`totalCount` descriptors, each with `z` in `[minZoom, maxZoom]`, in strictly
ascending zoom order (the `tileRanges` list order) and, within a zoom, in
strictly ascending X and then Y. -/
theorem fetchTiles_generator_enumeration (proj : ProjFn)
    (extRes : Except Err Extent) (config : TilesConfig)
    (fc : FetchTilesConfig)
    (h : processTilesConfig proj extRes config = .ok fc)
    (hproper : ∀ r ∈ fc.tileRanges, r.minX ≤ r.maxX ∧ r.minY ≤ r.maxY) :
    (((generateTileURLs fc).length : ℕ) : ℤ) = fc.totalCount
    ∧ (∀ t ∈ generateTileURLs fc,
        config.minZoom ≤ t.z ∧ t.z ≤ config.maxZoom)
    ∧ (generateTileURLs fc).Pairwise tileLt := by
  have hz := processTilesConfig_ok_minZoom_le proj extRes config fc h
  obtain ⟨-, hmapz, htc, hcnt⟩ :=
    processTilesConfig_ranges_shape proj extRes config fc h hz
  have hproj := buildTiles_map_proj fc.url fc.subdomains 0
    (allCells fc.tileRanges)
  refine ⟨?_, ?_, ?_⟩
  · rw [generateTileURLs, buildTiles_length, allCells, List.length_flatMap]
    simp only [Function.comp_def]
    rw [htc]
    refine sum_map_cast_congr fc.tileRanges _ _ fun r hr => ?_
    rw [List.length_map,
      rangeCells_length_of_proper r (hproper r hr).1 (hproper r hr).2,
      (hcnt r hr).symm]
  · intro t ht
    have hmem : (t.z, t.x, t.y) ∈ allCells fc.tileRanges := by
      rw [← hproj]
      exact List.mem_map_of_mem _ ht
    rw [allCells] at hmem
    obtain ⟨r, hr, hq'⟩ := List.mem_flatMap.mp hmem
    obtain ⟨p, -, heq⟩ := List.mem_map.mp hq'
    have hzr : r.zoom = t.z := congrArg Prod.fst heq
    have hzmem : r.zoom ∈ zoomList config.minZoom config.maxZoom := by
      rw [← hmapz]
      exact List.mem_map_of_mem TileRange.zoom hr
    rw [mem_zoomList] at hzmem
    omega
  · have hzoompw : fc.tileRanges.Pairwise fun r r' => r.zoom < r'.zoom := by
      have hpw := zoomList_pairwise config.minZoom config.maxZoom
      rw [← hmapz, List.pairwise_map] at hpw
      exact hpw
    have hcells := allCells_pairwise _ hzoompw
    rw [← hproj, List.pairwise_map] at hcells
    exact hcells.imp fun hab => hab

/-- C3 witness: on the concrete validated configuration `fcW` the generator
yields exactly `totalCount` descriptors. -/
theorem fetchTiles_generator_enumeration_witness :
    (((generateTileURLs fcW).length : ℕ) : ℤ) = fcW.totalCount :=
  (fetchTiles_generator_enumeration (fun _ _ c => .ok (some c.1, some c.2))
    (.ok ⟨0, 0, 1, 1⟩) cfgW fcW
    (by norm_num +decide [processTilesConfig, cfgW, fcW, containsExtent,
      includes, phS, lb, rb, buildRanges, zoomList, getTileRangeForExtentAndZ,
      getTileRangeForExtent, createXYZTileGrid, calculateResolutions,
      reduceSum, List.range_succ])
    (by decide)).1

/-- The corner transformation of the C3 counterexample: shift every corner
down by `100` units, moving the transformed bbox entirely below the grid
extent. -/
def projShift : ProjFn := fun _ _ c => .ok (some c.1, some (c.2 - 100))

/-- The raw configuration of the C3 counterexample: its WGS84 bbox passes
the (untransformed) containment check against the CRS extent
`[0, 0, 16, 16]`, but its transformed bbox lies below the grid. -/
def cfgShift : TilesConfig :=
  { url := ['u'], subdomains := none, bbox := ⟨1, 1, 2, 2⟩,
    minZoom := 0, maxZoom := 0, crs := "EPSG:9999" }

/-- The validated configuration the C3 counterexample run produces: one
inverted tile range (`minY = 7 > 0 = maxY`) with a negative `count`. -/
def fcShift : FetchTilesConfig :=
  { toTilesConfig := cfgShift, totalCount := -6,
    tileRanges := [⟨0, 0, 0, 7, 0, -6⟩] }

/-- C3 counterexample: a configuration produced by `processTilesConfig`
(under a corner transformation that moves the bbox below the grid extent)
has `totalCount = −6`, while the descriptor generator yields `0`
descriptors — refuting "yields exactly totalCount descriptors" for
configurations whose ranges are inverted. -/
theorem fetchTiles_generator_count_counterexample :
    processTilesConfig projShift (.ok ⟨0, 0, 16, 16⟩) cfgShift = .ok fcShift
    ∧ (generateTileURLs fcShift).length = 0
    ∧ fcShift.totalCount = -6 := by
  refine ⟨?_, by decide, rfl⟩
  norm_num +decide [processTilesConfig, cfgShift, fcShift, containsExtent,
    includes, phS, lb, rb, buildRanges, zoomList, getTileRangeForExtentAndZ,
    getTileRangeForExtent, createXYZTileGrid, calculateResolutions,
    reduceSum, transformExtent, mapCorners, cornersOf, projShift,
    List.filterMap_cons, List.filterMap_nil, min_def, max_def]

/-- `s.replace(pat, val)` is the identity when `pat` does not occur. -/
theorem replaceFirst_of_not_includes (pat val : Str) :
    ∀ s : Str, includes pat s = false → replaceFirst pat val s = s := by
  intro s
  induction s with
  | nil =>
    intro h
    simp only [includes] at h
    simp [replaceFirst, h]
  | cons c rest ih =>
    intro h
    simp only [includes, Bool.or_eq_false_iff] at h
    simp [replaceFirst, h.1, ih h.2]

/-- `s.replace(pat, val)` rewrites exactly the first occurrence of `pat`:
the string splits as `a ++ pat ++ b` with the shown occurrence leftmost, and
the result is `a ++ val ++ b` — in particular every later occurrence of
`pat` lies in `b` and is kept verbatim by this replacement. -/
theorem replaceFirst_first_occurrence (pat val : Str) (hpat : pat ≠ []) :
    ∀ s : Str, includes pat s = true →
      ∃ a b, s = a ++ pat ++ b
        ∧ replaceFirst pat val s = a ++ val ++ b
        ∧ ∀ a' b', s = a' ++ pat ++ b' → a.length ≤ a'.length := by
  intro s
  induction s with
  | nil =>
    intro h
    simp only [includes] at h
    rw [List.isPrefixOf_iff_prefix] at h
    exact absurd (List.prefix_nil.mp h) hpat
  | cons c rest ih =>
    intro h
    by_cases hpre : pat.isPrefixOf (c :: rest)
    · obtain ⟨tl, htl⟩ := List.isPrefixOf_iff_prefix.mp hpre
      refine ⟨[], tl, by simp [← htl], ?_, fun a' b' _ => by simp⟩
      simp only [replaceFirst, if_pos hpre, List.nil_append]
      rw [← htl, List.drop_left]
    · have hrest : includes pat rest = true := by
        simp only [includes, Bool.or_eq_true] at h
        rcases h with h | h
        · exact absurd h hpre
        · exact h
      obtain ⟨a, b, heq, hrepl, hmin⟩ := ih hrest
      refine ⟨c :: a, b, by simp [heq], ?_, ?_⟩
      · simp [replaceFirst, hpre, hrepl]
      · intro a' b' heq'
        cases a' with
        | nil =>
          exfalso
          apply hpre
          rw [List.isPrefixOf_iff_prefix]
          simp only [List.nil_append] at heq'
          exact heq' ▸ List.prefix_append pat b'
        | cons c' a'' =>
          simp only [List.cons_append, List.cons.injEq] at heq'
          have := hmin a'' b' heq'.2
          simp only [List.length_cons]
          omega

/-- C10: URL placeholders are substituted by first-occurrence string
replacement, applied sequentially in the fixed order `{x}`, `{y}`, `{-y}`,
`{z}`, `{s}`: the replacement primitive rewrites only the leftmost
occurrence of a placeholder and keeps the rest of the template (hence every
later occurrence) verbatim, is the identity when the placeholder is absent,
and on a template doubling every placeholder the produced URL keeps the
second occurrences literally. -/
theorem url_substitution_first_occurrence :
    (∀ s pat val : Str, pat ≠ [] → includes pat s = true →
      ∃ a b, s = a ++ pat ++ b
        ∧ replaceFirst pat val s = a ++ val ++ b
        ∧ ∀ a' b', s = a' ++ pat ++ b' → a.length ≤ a'.length)
    ∧ (∀ s pat val : Str, includes pat s = false →
        replaceFirst pat val s = s)
    ∧ (∀ (t : Str) (l : List Str) (idx : ℕ) (x y : ℤ) (zoom : ℕ), l ≠ [] →
        (buildTileURL t (some l) idx x y zoom).1
          = replaceFirst phS (l.getD ((idx + 1) % l.length) [])
              (replaceFirst phZ (intStr zoom)
                (replaceFirst phMY (intStr (2 ^ zoom - 1 - y))
                  (replaceFirst phY (intStr y)
                    (replaceFirst phX (intStr x) t)))))
    ∧ buildTileURL
        (phX ++ phX ++ phY ++ phY ++ phMY ++ phMY ++ phZ ++ phZ ++ phS ++ phS)
        (some [['a'], ['b'], ['c']]) 0 1 2 3
        = (intStr 1 ++ phX ++ intStr 2 ++ phY ++ intStr 5 ++ phMY
            ++ intStr 3 ++ phZ ++ ['b'] ++ phS, 1) := by
  refine ⟨?_, ?_, ?_, ?_⟩
  · intro s pat val hpat hs
    exact replaceFirst_first_occurrence pat val hpat s hs
  · intro s pat val hs
    exact replaceFirst_of_not_includes pat val s hs
  · intro t l idx x y zoom hl
    simp [buildTileURL, List.length_pos.mpr hl]
  · decide

/-- C10 witness: the no-op part of the substitution contract instantiated
at a template that does not contain `{y}`. -/
theorem url_substitution_first_occurrence_witness :
    replaceFirst phY ['9'] phX = phX :=
  url_substitution_first_occurrence.2.1 phX phY ['9'] (by decide)

/-- The validated configuration of the C4 rotation example: five tiles at
zoom `1`, template `{s}`, subdomains `a`, `b`, `c`. -/
def fcRot : FetchTilesConfig :=
  { url := phS, subdomains := some [['a'], ['b'], ['c']], bbox := ⟨0, 0, 1, 1⟩,
    minZoom := 1, maxZoom := 1, crs := "EPSG:3857", totalCount := 5,
    tileRanges := [⟨1, 0, 0, 0, 4, 5⟩] }

/-- C4: the subdomain cursor starts at `0` and, for a non-empty subdomain
list, advances by one modulo the list length immediately before each `{s}`
substitution, so the five descriptors of the rotation example use
`b, c, a, b, c`; for an empty (or absent) subdomain list the cursor does
not advance and `{s}` is left unsubstituted. -/
theorem subdomain_rotation :
    (generateTileURLs fcRot).map UnfetchedTile.url
        = [['b'], ['c'], ['a'], ['b'], ['c']]
    ∧ (∀ (t : Str) (l : List Str) (idx : ℕ) (x y : ℤ) (zoom : ℕ), l ≠ [] →
        (buildTileURL t (some l) idx x y zoom).2 = (idx + 1) % l.length)
    ∧ (∀ (t : Str) (idx : ℕ) (x y : ℤ) (zoom : ℕ),
        (buildTileURL t (some []) idx x y zoom).2 = idx
        ∧ (buildTileURL t none idx x y zoom).2 = idx)
    ∧ (∀ (t : Str) (idx : ℕ) (x y : ℤ) (zoom : ℕ),
        includes phX t = false → includes phY t = false →
        includes phMY t = false → includes phZ t = false →
        (buildTileURL t (some []) idx x y zoom).1 = t
        ∧ (buildTileURL t none idx x y zoom).1 = t) := by
  refine ⟨by decide, ?_, ?_, ?_⟩
  · intro t l idx x y zoom hl
    simp [buildTileURL, List.length_pos.mpr hl]
  · intro t idx x y zoom
    exact ⟨by simp [buildTileURL], by simp [buildTileURL]⟩
  · intro t idx x y zoom hX hY hMY hZ
    constructor <;>
    · simp only [buildTileURL, replaceFirst_of_not_includes phX (intStr x) t hX]
      rw [replaceFirst_of_not_includes phY (intStr y) t hY,
        replaceFirst_of_not_includes phMY _ t hMY,
        replaceFirst_of_not_includes phZ _ t hZ]
      try simp

/-- C4 witness: the cursor-advance law instantiated at the three-element
list with cursor `0`: the new cursor is `1` (subdomain `b`). -/
theorem subdomain_rotation_witness :
    (buildTileURL phS (some [['a'], ['b'], ['c']]) 0 0 0 0).2
      = (0 + 1) % ([['a'], ['b'], ['c']] : List Str).length :=
  subdomain_rotation.2.1 phS [['a'], ['b'], ['c']] 0 0 0 0 (by decide)

/-- The invariants of one `drainWhile` wait loop: it launches nothing; when
it exits normally, the remaining in-flight set shrank by one per settled
event and is below the threshold (or empty), and every event is a yield;
when it halts, the events are yields followed by one final failure. -/
theorem drainWhile_spec (threshold : ℕ) (sched : Schedule) :
    ∀ (n : ℕ) (pending : List UnfetchedTile) (k : ℕ),
      pending.length ≤ n →
      launches (drainWhile threshold sched pending k).1 = 0
      ∧ ((drainWhile threshold sched pending k).2.2.2 = false →
          (((drainWhile threshold sched pending k).2.1.length : ℤ)
              = (pending.length : ℤ)
                - settles (drainWhile threshold sched pending k).1
            ∧ ((drainWhile threshold sched pending k).2.1.length < threshold
                ∨ (drainWhile threshold sched pending k).2.1 = [])
            ∧ onlyYields (drainWhile threshold sched pending k).1 = true))
      ∧ ((drainWhile threshold sched pending k).2.2.2 = true →
          ∃ e ys, (drainWhile threshold sched pending k).1
              = ys ++ [FetchEvent.failed e]
            ∧ onlyYields ys = true) := by
  intro n
  induction n with
  | zero =>
    intro p k hp
    have hpnil : p = [] := List.length_eq_zero.mp (Nat.le_zero.mp hp)
    subst hpnil
    rw [drainWhile, dif_neg (by simp)]
    simp [launches, settles, onlyYields]
  | succ n ih =>
    intro p k hp
    rw [drainWhile]
    by_cases hcond : threshold ≤ p.length ∧ p ≠ []
    · rw [dif_pos hcond]
      dsimp only
      have hpos : 0 < p.length := List.length_pos.mpr hcond.2
      have hi : (sched k).1 % p.length < p.length := Nat.mod_lt _ hpos
      split
      · next ft hft =>
        have hlen : (p.eraseIdx ((sched k).1 % p.length)).length ≤ n := by
          rw [List.length_eraseIdx_of_lt hi]; omega
        obtain ⟨h1, h2, h3⟩ := ih _ (k + 1) hlen
        refine ⟨by simpa [launches] using h1, ?_, ?_⟩
        · intro hhalt
          obtain ⟨ha, hb, hc⟩ := h2 hhalt
          refine ⟨?_, hb, by simpa [onlyYields] using hc⟩
          dsimp only
          rw [ha]
          simp only [settles, List.length_eraseIdx_of_lt hi]
          push_cast
          omega
        · intro hhalt
          obtain ⟨e, ys, hys, hoy⟩ := h3 hhalt
          exact ⟨e, .yielded ft :: ys, by simp [hys],
            by simpa [onlyYields] using hoy⟩
      · next e hft =>
        exact ⟨by simp [launches], fun hh => absurd hh (by simp),
          fun _ => ⟨e, [], rfl, rfl⟩⟩
    · rw [dif_neg hcond]
      refine ⟨rfl, ?_, fun hh => absurd hh (by simp)⟩
      intro _
      refine ⟨by simp [settles], ?_, rfl⟩
      dsimp only
      rcases not_and_or.mp hcond with h | h
      · exact Or.inl (by omega)
      · exact Or.inr (by simpa using h)

/-- `launches` distributes over concatenation. -/
theorem launches_append (a b : List FetchEvent) :
    launches (a ++ b) = launches a + launches b := by
  induction a with
  | nil => simp [launches]
  | cons e rest ih => cases e <;> simp [launches, ih] <;> omega

/-- `settles` distributes over concatenation. -/
theorem settles_append (a b : List FetchEvent) :
    settles (a ++ b) = settles a + settles b := by
  induction a with
  | nil => simp [settles]
  | cons e rest ih => cases e <;> simp [settles, ih] <;> omega

/-- A yield-only trace launches nothing. -/
theorem onlyYields_launches (a : List FetchEvent) (h : onlyYields a = true) :
    launches a = 0 := by
  induction a with
  | nil => rfl
  | cons e rest ih =>
    cases e with
    | yielded t => exact ih (by simpa [onlyYields] using h)
    | launched t => simp [onlyYields] at h
    | failed e => simp [onlyYields] at h

/-- Prepending a yield-only trace preserves failure-terminality. -/
theorem onlyYields_failureTerminal_append (a b : List FetchEvent)
    (ha : onlyYields a = true) (hb : failureTerminal b) :
    failureTerminal (a ++ b) := by
  induction a with
  | nil => exact hb
  | cons e rest ih =>
    cases e with
    | yielded t => exact ih (by simpa [onlyYields] using ha)
    | launched t => simp [onlyYields] at ha
    | failed e => simp [onlyYields] at ha

/-- A yield-only trace followed by a single failure is failure-terminal. -/
theorem onlyYields_failed_failureTerminal (ys : List FetchEvent)
    (e : FetchError) (h : onlyYields ys = true) :
    failureTerminal (ys ++ [FetchEvent.failed e]) := by
  induction ys with
  | nil => rfl
  | cons e0 rest ih =>
    cases e0 with
    | yielded t => exact ih (by simpa [onlyYields] using h)
    | launched t => simp [onlyYields] at h
    | failed e1 => simp [onlyYields] at h

/-- Every trace of the orchestration loop is failure-terminal. -/
theorem run_failureTerminal (N : ℕ) (sched : Schedule) :
    ∀ (queue pending : List UnfetchedTile) (k : ℕ),
      failureTerminal (fetchTilesRun N sched queue pending k) := by
  intro queue
  induction queue with
  | nil =>
    intro p k
    obtain ⟨-, h2, h3⟩ := drainWhile_spec 1 sched p.length p k le_rfl
    rw [fetchTilesRun]
    cases hb : (drainWhile 1 sched p k).2.2.2 with
    | false =>
      obtain ⟨-, -, hoy⟩ := h2 hb
      simpa using onlyYields_failureTerminal_append _ [] hoy trivial
    | true =>
      obtain ⟨e, ys, hys, hoy⟩ := h3 hb
      rw [hys]
      exact onlyYields_failed_failureTerminal ys e hoy
  | cons d rest ih =>
    intro p k
    rw [fetchTilesRun]
    show failureTerminal ((drainWhile N sched (p ++ [d]) k).1 ++ _)
    obtain ⟨-, h2, h3⟩ :=
      drainWhile_spec N sched (p ++ [d]).length (p ++ [d]) k le_rfl
    cases hb : (drainWhile N sched (p ++ [d]) k).2.2.2 with
    | false =>
      obtain ⟨-, -, hoy⟩ := h2 hb
      rw [if_neg (by simp [hb])]
      exact onlyYields_failureTerminal_append _ _ hoy (ih _ _)
    | true =>
      obtain ⟨e, ys, hys, hoy⟩ := h3 hb
      rw [if_pos rfl, hys]
      simpa using onlyYields_failed_failureTerminal ys e hoy

/-- Along every decomposition of an orchestration trace, the number of
launched-but-not-settled operations stays at most `N` above what was already
in flight. -/
theorem run_prefix_bound (N : ℕ) (hN : 1 ≤ N) (sched : Schedule) :
    ∀ (queue pending : List UnfetchedTile) (k : ℕ), pending.length < N →
      ∀ pre suf, fetchTilesRun N sched queue pending k = pre ++ suf →
        (launches pre : ℤ) - settles pre ≤ (N : ℤ) - pending.length := by
  intro queue
  induction queue with
  | nil =>
    intro p k hp pre suf heq
    obtain ⟨h1, -, -⟩ := drainWhile_spec 1 sched p.length p k le_rfl
    rw [fetchTilesRun] at heq
    have hl : launches pre = 0 := by
      have := congrArg launches heq
      rw [launches_append] at this
      omega
    rw [hl]
    push_cast
    omega
  | cons d rest ih =>
    intro p k hp pre suf heq
    rw [fetchTilesRun] at heq
    obtain ⟨h1, h2, h3⟩ :=
      drainWhile_spec N sched (p ++ [d]).length (p ++ [d]) k le_rfl
    cases pre with
    | nil =>
      simp [launches, settles]
      push_cast
      omega
    | cons e0 pre' =>
      rw [List.cons_append] at heq
      have he0 : e0 = .launched d := (List.cons.injEq _ _ _ _).mp heq |>.1.symm
      have heq' : pre' ++ suf
          = (drainWhile N sched (p ++ [d]) k).1
            ++ (if (drainWhile N sched (p ++ [d]) k).2.2.2 then []
                else fetchTilesRun N sched rest
                  (drainWhile N sched (p ++ [d]) k).2.1
                  (drainWhile N sched (p ++ [d]) k).2.2.1) :=
        ((List.cons.injEq _ _ _ _).mp heq).2.symm
      subst he0
      rcases List.append_eq_append_iff.mp heq' with
        ⟨a', hw, hsuf⟩ | ⟨c', hpre', hT⟩
      · have : launches pre' = 0 := by
          have := congrArg launches hw
          rw [launches_append] at this
          omega
        simp only [launches, settles, this]
        push_cast
        omega
      · subst hpre'
        cases hb : (drainWhile N sched (p ++ [d]) k).2.2.2 with
        | true =>
          rw [hb, if_pos rfl] at hT
          obtain ⟨hc', hsuf⟩ := (List.append_eq_nil).mp hT.symm
          subst hc'
          simp only [launches, settles, launches_append, settles_append, h1,
            List.append_nil]
          push_cast
          omega
        | false =>
          rw [hb, if_neg (by simp)] at hT
          obtain ⟨hlen, hexit, -⟩ := h2 hb
          have hlt : (drainWhile N sched (p ++ [d]) k).2.1.length < N := by
            rcases hexit with h | h
            · exact h
            · rw [h]; simpa using hN
          have hrec := ih _ _ hlt c' suf hT
          have hpd : (p ++ [d]).length = p.length + 1 := by simp
          rw [hpd] at hlen
          simp only [launches, settles, launches_append, settles_append, h1]
          push_cast
          push_cast at hlen hrec
          omega

/-- In a failure-terminal trace, nothing follows a failure event. -/
theorem failureTerminal_no_after (evs : List FetchEvent)
    (h : failureTerminal evs) :
    ∀ (pre : List FetchEvent) (e : FetchError) (post : List FetchEvent),
      evs = pre ++ FetchEvent.failed e :: post → post = [] := by
  intro pre
  induction pre generalizing evs with
  | nil =>
    intro e post heq
    subst heq
    exact h
  | cons e0 pre' ih =>
    intro e post heq
    subst heq
    cases e0 with
    | launched t =>
      exact ih (pre' ++ FetchEvent.failed e :: post)
        (by simpa [failureTerminal] using h) e post rfl
    | yielded t =>
      exact ih (pre' ++ FetchEvent.failed e :: post)
        (by simpa [failureTerminal] using h) e post rfl
    | failed e1 => exact absurd h (by simp [failureTerminal])

/-- The 404 response of the C8 demonstration run. -/
def badResponse : Response :=
  { ok := false, status := 404, url := ['u'], blob := { type := [] } }

/-- The three descriptors of the C8 demonstration run. -/
def dA : UnfetchedTile := { url := ['a'], x := 0, y := 0, z := 0 }

/-- Second descriptor of the C8 demonstration run. -/
def dB : UnfetchedTile := { url := ['b'], x := 1, y := 0, z := 0 }

/-- Third descriptor of the C8 demonstration run. -/
def dC : UnfetchedTile := { url := ['c'], x := 2, y := 0, z := 0 }

/-- C8: the first fetch failure observed (in completion order) is surfaced
as a failure that terminates the sequence: every `fetchTiles` trace is
failure-terminal, so nothing — in particular no further `FetchedTile` — is
ever yielded after a failure event; in the demonstration run the first 404
completion ends the trace while the third descriptor is never launched. -/
theorem fetchTiles_fail_fast :
    (∀ (config : FetchTilesConfig) (sched : Schedule)
        (maxParallelDownloads : ℕ),
        failureTerminal (fetchTiles config sched maxParallelDownloads))
    ∧ (∀ (config : FetchTilesConfig) (sched : Schedule)
        (maxParallelDownloads : ℕ) (pre : List FetchEvent) (e : FetchError)
        (post : List FetchEvent),
        fetchTiles config sched maxParallelDownloads
            = pre ++ FetchEvent.failed e :: post →
        post = [])
    ∧ fetchTilesRun 2 (fun _ => (0, badResponse)) [dA, dB, dC] [] 0
        = [FetchEvent.launched dA, FetchEvent.launched dB,
           FetchEvent.failed (.httpStatus 404 ['u'])] := by
  refine ⟨?_, ?_, ?_⟩
  · intro config sched N
    exact run_failureTerminal N sched _ [] 0
  · intro config sched N pre e post heq
    exact failureTerminal_no_after _ (run_failureTerminal N sched _ [] 0)
      pre e post heq
  · simp +decide [fetchTilesRun, drainWhile, fetchTile, badResponse,
      dA, dB, dC, dummyTile]

/-- C9: for every concurrency limit `N ≥ 1`, at no point of any `fetchTiles`
run are more than `N` fetch operations simultaneously in flight: along every
decomposition of the trace, the launches minus the settled completions never
exceed `N`. -/
theorem fetchTiles_concurrency_bound (maxParallelDownloads : ℕ)
    (hN : 1 ≤ maxParallelDownloads) (config : FetchTilesConfig)
    (sched : Schedule) (pre suf : List FetchEvent)
    (h : fetchTiles config sched maxParallelDownloads = pre ++ suf) :
    (launches pre : ℤ) - settles pre ≤ maxParallelDownloads := by
  have := run_prefix_bound _ hN sched (generateTileURLs config) [] 0
    (by simpa using hN) pre suf h
  simpa using this

/-- The single-tile configuration of the C9 witness run. -/
def fcOne : FetchTilesConfig :=
  { url := ['u'], subdomains := none, bbox := ⟨0, 0, 1, 1⟩,
    minZoom := 0, maxZoom := 0, crs := "EPSG:4326", totalCount := 1,
    tileRanges := [⟨0, 0, 0, 0, 0, 1⟩] }

/-- The successful image response of the C9 witness run. -/
def okResponse : Response :=
  { ok := true, status := 200, url := [], blob := { type := "image/".toList } }

/-- The single descriptor of the C9 witness run. -/
def tOne : UnfetchedTile := { url := ['u'], x := 0, y := 0, z := 0 }

/-- The fetched tile of the C9 witness run. -/
def ftOne : FetchedTile :=
  { toUnfetchedTile := tOne, blob := { type := "image/".toList } }

/-- C9 witness: a concrete run with `N = 1` whose one-launch prefix is
within the bound. -/
theorem fetchTiles_concurrency_bound_witness :
    fetchTiles fcOne (fun _ => (0, okResponse)) 1
        = [FetchEvent.launched tOne] ++ [FetchEvent.yielded ftOne]
    ∧ (launches [FetchEvent.launched tOne] : ℤ)
        - settles [FetchEvent.launched tOne] ≤ (1 : ℕ) :=
  have hrun : fetchTiles fcOne (fun _ => (0, okResponse)) 1
      = [FetchEvent.launched tOne] ++ [FetchEvent.yielded ftOne] := by
    simp +decide [fetchTiles, fetchTilesRun, drainWhile, fetchTile,
      generateTileURLs, allCells, rangeCells, intRange, buildTiles,
      buildTileURL, replaceFirst, fcOne, okResponse, tOne, ftOne, dummyTile,
      phX, phY, phMY, phZ, phS, lb, rb, intStr, natStr]
  ⟨hrun, fetchTiles_concurrency_bound 1 le_rfl fcOne _ _ _ hrun⟩

end TileDL
